import Mathlib

/-!
Shallow embedding of the fshare file-transfer program (Rust sources:
`src/protocol.rs`, `src/server.rs`, `src/client.rs`).

Modelling conventions:
* Bytes are `Nat` values (`u8` values are below 256; arithmetic that the
  source performs on `u64` is taken modulo `2 ^ 64` where overflow matters).
* The inbound side of a TCP connection is modelled as a `Stream`: the list of
  chunks returned by successive raw reads, in order.  The end of the list is
  end-of-stream (the peer closed the connection; every further raw read
  returns zero bytes).  Real reads return at least one byte before
  end-of-stream, so the chunks of interest are nonempty; the definitions are
  total and theorems add nonemptiness hypotheses where the distinction
  matters.
* Fallible operations return `Except` / `Option`; a loop of the source that
  never terminates is modelled by a dedicated `hang` result value.
* Outbound writes are modelled as always succeeding except where a claim is
  about send failures, in which case the send outcomes are an explicit input
  trace (`clientGoodbye`, `serverGoodbye`).
-/

namespace Fshare

/-- A chunk of bytes delivered by one raw read from the connection. -/
abbrev Chunk := List Nat

/-- The inbound byte stream of a connection: successive raw-read chunks. -/
abbrev Stream := List Chunk

/-! ## Message codec (`src/protocol.rs`) -/

/-- The four control messages of `protocol::Message`. -/
inductive Message where
  | FileTransferRequest
  | RequestDenied
  | Ack
  | Goodbye
  deriving DecidableEq, Repr

/-- The error variants of `protocol::Error` together with the foreign error
kinds that flow through the server as boxed errors (`String::from_utf8`
failure). -/
inductive PErr where
  /-- `protocol::Error::Message`: a byte could not be decoded. -/
  | message
  /-- `protocol::Error::Behaviour`: invalid internal protocol state. -/
  | behaviour
  /-- `protocol::Error::Generic(..)`: the "Empty filename received!" error. -/
  | generic
  /-- a `std::string::FromUtf8Error` from `String::from_utf8`. -/
  | utf8
  deriving DecidableEq, Repr

/-- Embedding of `impl TryFrom<u8> for Message` (`src/protocol.rs`):
bytes 30, 43, 200, 255 decode to the four messages, anything else is
`Error::Message`. -/
def try_from (b : Nat) : Except PErr Message :=
  if b = 30 then .ok .FileTransferRequest
  else if b = 43 then .ok .RequestDenied
  else if b = 200 then .ok .Ack
  else if b = 255 then .ok .Goodbye
  else .error .message

/-- Embedding of `Message::as_bytes` (`src/protocol.rs`): the one-byte wire
encoding of each control message. -/
def as_bytes : Message → List Nat
  | .FileTransferRequest => [30]
  | .RequestDenied => [43]
  | .Ack => [200]
  | .Goodbye => [255]

/-! ## Big-endian u64 encoding (`u64::to_be_bytes` / `u64::from_be_bytes`) -/

/-- Big-endian byte encoding of `n` in `w` bytes (`u64::to_be_bytes` is
`toBeBytes 8`); values at or above `256 ^ w` wrap, matching the fixed width
of the machine integer. -/
def toBeBytes : Nat → Nat → List Nat
  | 0, _ => []
  | w + 1, n => toBeBytes w (n / 256) ++ [n % 256]

/-- Big-endian interpretation of a byte list (`u64::from_be_bytes` applied to
8 bytes). -/
def fromBe (l : List Nat) : Nat :=
  l.foldl (fun a b => a * 256 + b) 0

theorem fromBe_append_singleton (l : List Nat) (b : Nat) :
    fromBe (l ++ [b]) = fromBe l * 256 + b := by
  simp [fromBe]

theorem fromBe_toBeBytes (w n : Nat) : fromBe (toBeBytes w n) = n % 256 ^ w := by
  induction w generalizing n with
  | zero => simp [toBeBytes, fromBe, Nat.mod_one]
  | succ w ih =>
    rw [toBeBytes, fromBe_append_singleton, ih]
    have h : (256 : Nat) ^ (w + 1) = 256 * 256 ^ w := by ring
    rw [h, Nat.mod_mul]
    ring

theorem toBeBytes_length (w n : Nat) : (toBeBytes w n).length = w := by
  induction w generalizing n with
  | zero => simp [toBeBytes]
  | succ w ih => simp [toBeBytes, ih]

/-! ## Stream primitives

`Server::receive_message` reads a single byte straight from the `TcpStream`;
`receive_filename` and `receive_file` each wrap the stream in a fresh
`BufReader` and work with `fill_buf`, which hands over the next raw-read
chunk.  Both granularities act on the same underlying byte sequence, so a
one-byte read takes the first byte of the earliest chunk and leaves the rest
of that chunk for the next read. -/

/-- Take one byte from the stream (a blocking 1-byte `read`); `none` means
the stream has ended (the read returns zero bytes).  A chunk emptied by the
read disappears, keeping the stream free of empty chunks: the next buffered
read blocks until the next nonempty chunk. -/
def streamTake1 : Stream → Option (Nat × Stream)
  | [] => none
  | [] :: rest => streamTake1 rest
  | (b :: bs) :: rest => some (b, if bs.isEmpty then rest else bs :: rest)

/-- Embedding of `Server::receive_message` (`src/server.rs`): read one byte
into a zero-initialised 1-byte buffer and decode it.  At end-of-stream the
read returns zero bytes, the buffer keeps its initial `0`, and decoding `0`
fails with `Error::Message`. -/
def receive_message (s : Stream) : Except PErr (Message × Stream) :=
  match streamTake1 s with
  | none =>
    match try_from 0 with
    | .ok m => .ok (m, [])
    | .error e => .error e
  | some (b, rest) =>
    match try_from b with
    | .ok m => .ok (m, rest)
    | .error e => .error e

/-- Embedding of the 8-byte size read in `Server::receive_file`
(`src/server.rs` line 144): `BufReader::read` with an 8-byte buffer copies
`min 8 (length of the next chunk)` bytes out of the buffered chunk and leaves
the remainder of the chunk buffered; untouched buffer positions keep their
initial `0`.  Returns the 8-byte buffer and the rest of the stream. -/
def bufRead8 : Stream → List Nat × Stream
  | [] => (List.replicate 8 0, [])
  | c :: rest =>
    let taken := c.take 8
    let buf := taken ++ List.replicate (8 - taken.length) 0
    if c.length ≤ 8 then (buf, rest) else (buf, c.drop 8 :: rest)

/-! ## UTF-8 validation (`String::from_utf8` in `Server::receive_filename`) -/

/-- Is `b` a UTF-8 continuation byte (`0x80 ..= 0xBF`)? -/
def isCont (b : Nat) : Bool :=
  0x80 ≤ b && b ≤ 0xBF

/-- UTF-8 validity of a byte list, following the standard table used by
`core::str` (which backs `String::from_utf8`): ASCII, 2-byte leads
`0xC2..=0xDF`, 3-byte leads `0xE0..=0xEF` with the `0xE0`/`0xED` restrictions
that exclude overlong forms and surrogates, and 4-byte leads `0xF0..=0xF4`
with the `0xF0`/`0xF4` restrictions. -/
def validUtf8 : List Nat → Bool
  | [] => true
  | b :: rest =>
    if b ≤ 0x7F then validUtf8 rest
    else if 0xC2 ≤ b && b ≤ 0xDF then
      match rest with
      | b2 :: rest2 => isCont b2 && validUtf8 rest2
      | [] => false
    else if b = 0xE0 then
      match rest with
      | b2 :: b3 :: rest3 =>
        (0xA0 ≤ b2 && b2 ≤ 0xBF) && isCont b3 && validUtf8 rest3
      | _ => false
    else if (0xE1 ≤ b && b ≤ 0xEC) || b = 0xEE || b = 0xEF then
      match rest with
      | b2 :: b3 :: rest3 => isCont b2 && isCont b3 && validUtf8 rest3
      | _ => false
    else if b = 0xED then
      match rest with
      | b2 :: b3 :: rest3 =>
        (0x80 ≤ b2 && b2 ≤ 0x9F) && isCont b3 && validUtf8 rest3
      | _ => false
    else if b = 0xF0 then
      match rest with
      | b2 :: b3 :: b4 :: rest4 =>
        (0x90 ≤ b2 && b2 ≤ 0xBF) && isCont b3 && isCont b4 && validUtf8 rest4
      | _ => false
    else if 0xF1 ≤ b && b ≤ 0xF3 then
      match rest with
      | b2 :: b3 :: b4 :: rest4 =>
        isCont b2 && isCont b3 && isCont b4 && validUtf8 rest4
      | _ => false
    else if b = 0xF4 then
      match rest with
      | b2 :: b3 :: b4 :: rest4 =>
        (0x80 ≤ b2 && b2 ≤ 0x8F) && isCont b3 && isCont b4 && validUtf8 rest4
      | _ => false
    else false

/-- Embedding of `Server::receive_filename` (`src/server.rs`): one buffered
read takes the next chunk whole (an empty chunk at end-of-stream), the bytes
are validated as UTF-8 by `String::from_utf8`, and on success they become the
stored filename; invalid bytes abort the step with the conversion error. -/
def receive_filename (s : Stream) : Except PErr (List Nat × Stream) :=
  match s with
  | [] => if validUtf8 [] then .ok ([], []) else .error .utf8
  | c :: rest => if validUtf8 c then .ok (c, rest) else .error .utf8

/-! ## Path handling (`PathBuf::from`, `Path::file_name`, `PathBuf::push`)

`Server::receive_file` builds the destination path as
`directory.push(PathBuf::from(filename).file_name()?)`.  Paths are byte
lists; `47` is the separator `/` and `46` is `.`. -/

/-- Split a byte list on the separator byte 47, keeping empty pieces. -/
def splitSlash : List Nat → List (List Nat)
  | [] => [[]]
  | b :: rest =>
    match splitSlash rest with
    | [] => [[]]
    | cur :: others =>
      if b = 47 then [] :: cur :: others else (b :: cur) :: others

/-- The normal components of a path: split on `/`, dropping empty pieces and
`.` pieces, as `std::path::Components` does on Unix. -/
def pathComponents (l : List Nat) : List (List Nat) :=
  (splitSlash l).filter (fun c => !c.isEmpty && !(c == [46]))

/-- Embedding of `Path::file_name`: the last component, unless the path ends
in `..` or has no component at all (empty path, bare `/`, `.` or `..`). -/
def rustFileName (l : List Nat) : Option (List Nat) :=
  match (pathComponents l).getLast? with
  | none => none
  | some c => if c == [46, 46] then none else some c

/-! ## The receive-file loop (`src/server.rs` lines 138-165) -/

/-- Wrapping `u64` subtraction `a - b` modulo `2 ^ 64` (the release-mode
semantics of the `size -= received.len()` overflow in `receive_file`; a debug
build panics at the same point). -/
def sub64 (a b : Nat) : Nat :=
  (a + (2 ^ 64 - b % 2 ^ 64)) % 2 ^ 64

/-- A destination file produced by `receive_file`: its full path and the
bytes written to it. -/
structure FileOut where
  path : List Nat
  contents : List Nat
  deriving DecidableEq, Repr

/-- Result of the `while size > 0` loop of `receive_file`. -/
inductive LoopRes where
  /-- The remaining size reached 0: `written` holds everything written, and
  `rest` the not-yet-consumed part of the stream. -/
  | done (written : List Nat) (rest : Stream)
  /-- The stream ended while the remaining size was still positive: from here
  every `fill_buf` returns an empty buffer and the loop spins forever.
  `written` holds the bytes written before the loop stopped making
  progress. -/
  | hang (written : List Nat)
  deriving DecidableEq, Repr

/-- Embedding of the `while size > 0` loop of `Server::receive_file`: each
iteration takes the next buffered chunk whole, writes all of it to the file
(even when the chunk is longer than the remaining size), subtracts the chunk
length from the remaining size with wrapping `u64` arithmetic, and consumes
the chunk. -/
def receiveFileLoop : Stream → Nat → List Nat → LoopRes
  | rest, 0, acc => .done acc rest
  | [], _ + 1, acc => .hang acc
  | c :: rest, size + 1, acc =>
    receiveFileLoop rest (sub64 (size + 1) c.length) (acc ++ c)

/-- Result of `Server::receive_file`. -/
inductive ReceiveFileResult where
  /-- The declared size was fully read: the file was created and holds
  `file.contents`; `rest` is the unconsumed remainder of the stream. -/
  | ok (file : FileOut) (rest : Stream)
  /-- `Path::file_name` of the stored filename was `none`: the
  "Empty filename received!" error, raised before any file is created. -/
  | fileErr (e : PErr)
  /-- The loop hangs (stream ended early): the file was created and `file`
  records what was written before the loop stopped making progress. -/
  | hang (file : FileOut)
  deriving DecidableEq, Repr

/-- Embedding of `Server::receive_file` (`src/server.rs`): read the size
prefix with a single buffered `read` into a zeroed 8-byte buffer, interpret
it big-endian, derive the destination path from the stored filename
(`directory.push(file_name)`), create the file, then run the write loop. -/
def receive_file (dir fname : List Nat) (s : Stream) : ReceiveFileResult :=
  let szBytes := (bufRead8 s).1
  let s1 := (bufRead8 s).2
  let size := fromBe szBytes
  match rustFileName fname with
  | none => .fileErr .generic
  | some base =>
    let path := dir ++ 47 :: base
    match receiveFileLoop s1 size [] with
    | .done written rest => .ok ⟨path, written⟩ rest
    | .hang written => .hang ⟨path, written⟩

/-- The destination file `receive_file` created, if any: both the successful
and the hanging outcome have created (and written to) the file; only the
empty-filename error aborts before `File::create`. -/
def createdFile : ReceiveFileResult → Option FileOut
  | .ok f _ => some f
  | .hang f => some f
  | .fileErr _ => none

/-! ## The client send side (`Client::<Sending>::send_file`, `src/client.rs`) -/

/-- Embedding of `Client::<Sending>::send_file`: write the file length as an
8-byte big-endian `u64`, then the file body (`io::copy`). -/
def send_file (body : List Nat) : List Nat :=
  toBeBytes 8 body.length ++ body

/-! ## Properties of the path model -/

theorem splitSlash_ne_nil (l : List Nat) : splitSlash l ≠ [] := by
  match l with
  | [] => simp [splitSlash]
  | b :: rest =>
    rw [splitSlash]
    match h : splitSlash rest with
    | [] => simp
    | cur :: others => by_cases hb : b = 47 <;> simp [hb]

theorem splitSlash_no_sep (l : List Nat) :
    ∀ p ∈ splitSlash l, 47 ∉ p := by
  induction l with
  | nil => intro p hp; simp [splitSlash] at hp; simp [hp]
  | cons b rest ih =>
    intro p hp
    rw [splitSlash] at hp
    match h : splitSlash rest with
    | [] => exact absurd h (splitSlash_ne_nil rest)
    | cur :: others =>
      rw [h] at hp
      dsimp only at hp
      have hcur : 47 ∉ cur := ih cur (h ▸ List.mem_cons_self cur others)
      by_cases hb : b = 47
      · rw [if_pos hb] at hp
        rcases List.mem_cons.mp hp with rfl | hp2
        · simp
        · exact ih p (h ▸ hp2)
      · rw [if_neg hb] at hp
        rcases List.mem_cons.mp hp with rfl | hp2
        · intro hmem
          rcases List.mem_cons.mp hmem with h47 | h47
          · exact hb h47.symm
          · exact hcur h47
        · exact ih p (h ▸ List.mem_cons_of_mem cur hp2)

/-- Any base name produced by `Path::file_name` is a single clean path
component: nonempty, free of the separator, and neither `.` nor `..`. -/
theorem rustFileName_clean (l base : List Nat) (h : rustFileName l = some base) :
    base ≠ [] ∧ 47 ∉ base ∧ base ≠ [46] ∧ base ≠ [46, 46] := by
  unfold rustFileName at h
  match hl : (pathComponents l).getLast? with
  | none => rw [hl] at h; simp at h
  | some c =>
    rw [hl] at h
    dsimp only at h
    by_cases hc : c = [46, 46]
    · subst hc
      simp at h
    · have hbeq : (c == [46, 46]) = false := by
        rw [beq_eq_false_iff_ne]
        exact hc
      rw [hbeq] at h
      have hcb : c = base := by simpa using h
      obtain ⟨hne2, hceq⟩ := List.mem_getLast?_eq_getLast
        (show c ∈ (pathComponents l).getLast? from Option.mem_def.mpr hl)
      have hmem : c ∈ pathComponents l := by
        rw [hceq]
        exact List.getLast_mem hne2
      have hfil := List.of_mem_filter hmem
      have hmem2 : c ∈ splitSlash l := List.mem_of_mem_filter hmem
      simp at hfil
      rw [← hcb]
      exact ⟨hfil.1, splitSlash_no_sep l c hmem2, hfil.2, hc⟩

/-! ## Exact-delivery behaviour of the receive loop -/

theorem sub64_exact (a b : Nat) (hb : b ≤ a) (ha : a < 2 ^ 64) :
    sub64 a b = a - b := by
  unfold sub64
  have hb64 : b % 2 ^ 64 = b := Nat.mod_eq_of_lt (Nat.lt_of_le_of_lt hb ha)
  rw [hb64]
  omega

/-- When the chunks on the stream hold exactly the declared number of bytes,
the receive loop consumes every chunk and writes exactly their
concatenation. -/
theorem receiveFileLoop_exact :
    ∀ (chunks : Stream) (acc : List Nat),
      (∀ c ∈ chunks, c ≠ []) → chunks.flatten.length < 2 ^ 64 →
      receiveFileLoop chunks chunks.flatten.length acc
        = .done (acc ++ chunks.flatten) [] := by
  intro chunks
  induction chunks with
  | nil => intro acc _ _; simp [receiveFileLoop]
  | cons c rest ih =>
    intro acc hne hlen
    have hc : c ≠ [] := hne c (List.mem_cons_self c rest)
    obtain ⟨x, xs, rfl⟩ := List.exists_cons_of_ne_nil hc
    have hjoin : ((x :: xs) :: rest).flatten.length
        = (xs.length + rest.flatten.length) + 1 := by
      simp [List.flatten_cons]
    rw [hjoin, receiveFileLoop]
    have hsub : sub64 ((xs.length + rest.flatten.length) + 1) (x :: xs).length
        = rest.flatten.length := by
      rw [sub64_exact]
      · simp
      · simp
      · rw [hjoin] at hlen
        omega
    rw [hsub]
    have hlen2 : rest.flatten.length < 2 ^ 64 := by
      rw [hjoin] at hlen
      omega
    have := ih (acc ++ x :: xs) (fun d hd => hne d (List.mem_cons_of_mem _ hd)) hlen2
    rw [this]
    simp

/-- Unfolding of `receive_file` once the filename has a valid base name. -/
theorem receive_file_eq (dir fname : List Nat) (s : Stream) (base : List Nat)
    (hbase : rustFileName fname = some base) :
    receive_file dir fname s =
      match receiveFileLoop (bufRead8 s).2 (fromBe (bufRead8 s).1) [] with
      | .done written rest => .ok ⟨dir ++ 47 :: base, written⟩ rest
      | .hang written => .hang ⟨dir ++ 47 :: base, written⟩ := by
  unfold receive_file
  rw [hbase]

/-- When the whole byte sequence delivered on the stream is exactly the
output of `send_file body` and the first read already carries the full
8-byte size prefix, `receive_file` succeeds and writes exactly `body`. -/
theorem receive_file_exact_delivery
    (dir fname base body : List Nat) (c : Chunk) (rest : Stream)
    (hbase : rustFileName fname = some base)
    (hjoin : (c :: rest).flatten = send_file body)
    (hc8 : 8 ≤ c.length)
    (hne : ∀ d ∈ rest, d ≠ [])
    (hlen : body.length < 2 ^ 64) :
    receive_file dir fname (c :: rest) = .ok ⟨dir ++ 47 :: base, body⟩ [] := by
  have hflat : c ++ rest.flatten = toBeBytes 8 body.length ++ body := by
    have := hjoin
    rw [List.flatten_cons] at this
    rw [this]
    rfl
  have htblen : (toBeBytes 8 body.length).length = 8 := toBeBytes_length 8 body.length
  have htake : c.take 8 = toBeBytes 8 body.length := by
    have h1 : (c ++ rest.flatten).take 8 = c.take 8 :=
      List.take_append_of_le_length hc8
    have h2 : (toBeBytes 8 body.length ++ body).take 8 = toBeBytes 8 body.length := by
      rw [List.take_append_of_le_length (le_of_eq htblen.symm)]
      exact List.take_of_length_le (le_of_eq htblen)
    rw [← h1, hflat, h2]
  have hdrop : c.drop 8 ++ rest.flatten = body := by
    have h1 : (c ++ rest.flatten).drop 8 = c.drop 8 ++ rest.flatten :=
      List.drop_append_of_le_length hc8
    have h2 : (toBeBytes 8 body.length ++ body).drop 8 = body := by
      rw [List.drop_append_of_le_length (le_of_eq htblen.symm)]
      rw [List.drop_eq_nil_of_le (le_of_eq htblen), List.nil_append]
    rw [← h1, hflat, h2]
  have hsz : fromBe (toBeBytes 8 body.length) = body.length := by
    rw [fromBe_toBeBytes]
    exact Nat.mod_eq_of_lt hlen
  rw [receive_file_eq dir fname _ base hbase]
  by_cases hcl : c.length ≤ 8
  · -- the first chunk is exactly the 8-byte prefix
    have hceq : c = toBeBytes 8 body.length := by
      rw [← htake, List.take_of_length_le hcl]
    have hbuf : bufRead8 (c :: rest) = (c, rest) := by
      rw [bufRead8, if_pos hcl]
      have h8 : c.length = 8 := Nat.le_antisymm hcl hc8
      simp [List.take_of_length_le hcl, h8]
    rw [hbuf]
    have hrest : rest.flatten = body := by
      have : c.drop 8 = [] := by
        apply List.drop_eq_nil_of_le
        exact hcl
      rw [this] at hdrop
      simpa using hdrop
    rw [hceq, hsz, ← hrest]
    have := receiveFileLoop_exact rest [] hne (by rw [hrest]; exact hlen)
    rw [this]
    simp [hrest]
  · -- the first chunk carries part of the body beyond the prefix
    push_neg at hcl
    have hbuf : bufRead8 (c :: rest) = (c.take 8, c.drop 8 :: rest) := by
      rw [bufRead8]
      rw [if_neg (by omega)]
      have h8 : (c.take 8).length = 8 := by
        simp
        omega
      simp [h8]
    rw [hbuf]
    have hne2 : ∀ d ∈ c.drop 8 :: rest, d ≠ [] := by
      intro d hd
      rcases List.mem_cons.mp hd with rfl | hd2
      · intro habs
        have := congrArg List.length habs
        simp at this
        omega
      · exact hne d hd2
    have hflat2 : (c.drop 8 :: rest).flatten = body := by
      rw [List.flatten_cons]
      exact hdrop
    rw [htake, hsz, ← hflat2]
    have := receiveFileLoop_exact (c.drop 8 :: rest) [] hne2
      (by rw [hflat2]; exact hlen)
    rw [this]
    simp [hflat2]

/-! ## The goodbye retry loops

Send failures are external events, so both loops are driven by an explicit
trace of I/O outcomes, one entry per loop iteration.  The loops of the
source can run forever (for example when every send succeeds but no
`Goodbye` reply ever arrives), so the model returns `none` when the trace is
exhausted with the loop still running. -/

/-- One iteration of the client goodbye loop, as decided by the outside
world: either the `send_message(Goodbye)` fails with `e`, or it succeeds and
the subsequent `receive_message` yields `received` (`none` standing for a
receive error). -/
inductive GStep (ε : Type) where
  | sendFail (e : ε)
  | sendOk (received : Option Message)

/-- Embedding of the loop in `Client::<Connected>::goodbye`
(`src/client.rs`): on a send failure the attempt counter is incremented and,
once it reaches `max_attempts = 5`, the loop breaks to `Disconnected`
carrying the last error; on a send success the loop breaks cleanly only when
the reply is `Goodbye`.  Returns the diagnostic error of the resulting
`Disconnected` client paired with the number of sends performed; `none`
means the trace ran out with the loop still going. -/
def clientGoodbyeAux (ε : Type) : Nat → Nat → List (GStep ε) →
    Option (Option ε × Nat)
  | _, _, [] => none
  | attempt, sends, .sendFail e :: rest =>
    if attempt + 1 ≥ 5 then some (some e, sends + 1)
    else clientGoodbyeAux ε (attempt + 1) (sends + 1) rest
  | attempt, sends, .sendOk received :: rest =>
    if received = some .Goodbye then some (none, sends + 1)
    else clientGoodbyeAux ε attempt (sends + 1) rest

/-- The client goodbye loop started with `attempt = 0`. -/
def clientGoodbye (ε : Type) (trace : List (GStep ε)) : Option (Option ε × Nat) :=
  clientGoodbyeAux ε 0 0 trace

/-- Embedding of the loop in `Server::goodbye` (`src/server.rs`): the trace
entry is `some e` when `send_message(Goodbye)` fails with `e` and `none`
when it succeeds.  The source sets `max_attempts = 10` and `attempt = 0` but
never increments `attempt`, and on a send failure it breaks with the error
when `attempt < max_attempts`; on a send success it half-closes the
connection for reading and clears the connection and state fields.  Returns
the loop result paired with the number of sends performed (`Except.ok`
standing for the successful close). -/
def serverGoodbyeAux (ε : Type) : Nat → Nat → List (Option ε) →
    Option (Except ε Unit × Nat)
  | _, _, [] => none
  | attempt, sends, some e :: rest =>
    if attempt < 10 then some (.error e, sends + 1)
    else serverGoodbyeAux ε attempt (sends + 1) rest
  | _, sends, none :: _ => some (.ok (), sends + 1)

/-- The server goodbye loop started with `attempt = 0`. -/
def serverGoodbye (ε : Type) (trace : List (Option ε)) :
    Option (Except ε Unit × Nat) :=
  serverGoodbyeAux ε 0 0 trace

/-! ## The server state machine (`Server::progress_protocol`, `Server::run`)

The model is fault-free on the outbound side: every `send_message` of an
`Ack` or `Goodbye` succeeds, as does the final `shutdown`.  The inbound side
is the explicit `Stream`. -/

/-- The protocol phases of `protocol::State`. -/
inductive PState where
  | Connected
  | Negotiating
  | Receiving
  deriving DecidableEq, Repr

/-- Outcome of one `progress_protocol` call. -/
inductive ProgressResult where
  /-- The call returned `Ok(())` (a goodbye completed the protocol). -/
  | ok
  /-- The call returned an error. -/
  | err (e : PErr)
  /-- The call never returns (the `receive_file` loop spins forever). -/
  | hang
  /-- The call panics (`self.filename.unwrap()` on `None`). -/
  | panic
  deriving DecidableEq, Repr

/-- Total number of inbound bytes still on the stream. -/
def streamBytes (s : Stream) : Nat :=
  (s.map List.length).sum

theorem streamTake1_bytes :
    ∀ s b s1, streamTake1 s = some (b, s1) →
      streamBytes s = streamBytes s1 + 1 := by
  intro s
  induction s with
  | nil => intro b s1 h; simp [streamTake1] at h
  | cons c rest ih =>
    intro b s1 h
    match c with
    | [] =>
      rw [streamTake1] at h
      have := ih b s1 h
      simpa [streamBytes] using this
    | x :: xs =>
      rw [streamTake1] at h
      cases h
      cases xs <;> simp [streamBytes] <;> omega

theorem receive_message_bytes (s : Stream) (m : Message) (s1 : Stream)
    (h : receive_message s = .ok (m, s1)) :
    streamBytes s = streamBytes s1 + 1 := by
  unfold receive_message at h
  match h1 : streamTake1 s with
  | none => rw [h1] at h; simp [try_from] at h
  | some (b, rest) =>
    rw [h1] at h
    dsimp only at h
    match h2 : try_from b with
    | .error e => rw [h2] at h; simp at h
    | .ok m1 =>
      rw [h2] at h
      simp at h
      obtain ⟨-, rfl⟩ := h
      exact streamTake1_bytes s b _ h1

theorem receive_filename_bytes (s : Stream) (name : List Nat) (s1 : Stream)
    (h : receive_filename s = .ok (name, s1)) :
    streamBytes s1 ≤ streamBytes s := by
  match s with
  | [] =>
    simp [receive_filename, show validUtf8 [] = true from rfl] at h
    obtain ⟨-, rfl⟩ := h
    exact Nat.le_refl _
  | c :: rest =>
    rw [receive_filename] at h
    by_cases hv : validUtf8 c
    · rw [if_pos hv] at h
      cases h
      simp [streamBytes]
    · rw [if_neg hv] at h
      cases h

theorem bufRead8_bytes (s : Stream) :
    streamBytes (bufRead8 s).2 ≤ streamBytes s := by
  match s with
  | [] => simp [bufRead8]
  | c :: rest =>
    rw [bufRead8]
    by_cases hc : c.length ≤ 8
    · simp only [if_pos hc]
      simp [streamBytes]
    · simp only [if_neg hc]
      simp [streamBytes]

theorem receiveFileLoop_done_bytes :
    ∀ s size acc w rest, receiveFileLoop s size acc = .done w rest →
      streamBytes rest ≤ streamBytes s := by
  intro s
  induction s with
  | nil =>
    intro size acc w rest h
    match size with
    | 0 => rw [receiveFileLoop] at h; cases h; exact Nat.le_refl _
    | _ + 1 => rw [receiveFileLoop] at h; cases h
  | cons c cs ih =>
    intro size acc w rest h
    match size with
    | 0 => rw [receiveFileLoop] at h; cases h; exact Nat.le_refl _
    | sz + 1 =>
      rw [receiveFileLoop] at h
      have := ih _ _ _ _ h
      simp [streamBytes] at this ⊢
      omega

theorem receive_file_bytes (dir fname : List Nat) (s : Stream)
    (file : FileOut) (s1 : Stream) (h : receive_file dir fname s = .ok file s1) :
    streamBytes s1 ≤ streamBytes s := by
  unfold receive_file at h
  match h0 : rustFileName fname with
  | none => rw [h0] at h; simp at h
  | some base =>
    rw [h0] at h
    simp only at h
    match h2 : receiveFileLoop (bufRead8 s).2 (fromBe (bufRead8 s).1) [] with
    | .hang w => rw [h2] at h; simp at h
    | .done w rest =>
      rw [h2] at h
      simp at h
      obtain ⟨-, rfl⟩ := h
      exact Nat.le_trans (receiveFileLoop_done_bytes _ _ _ _ _ h2) (bufRead8_bytes s)

/-- Ordering rank used to show that `progress_protocol` terminates: a
`Connected` step consumes one byte before reaching `Negotiating`, and at the
end of the stream `Negotiating` still advances (with an empty filename
chunk) to `Receiving`, which then errors or finishes. -/
def stateRank : Option PState → Nat
  | some .Connected => 0
  | some .Negotiating => 2
  | some .Receiving => 1
  | none => 0

set_option linter.unusedVariables false in
/-- Embedding of `Server::progress_protocol` (`src/server.rs`): act on the
current phase, recursing after each completed step.  `Connected` receives one
message and dispatches it as `handle_message` does (a `Goodbye` or an
unexpected message runs the fault-free goodbye and returns `Ok`);
`Negotiating` receives the filename and moves to `Receiving`; `Receiving`
receives the file and moves back to `Connected`; an unset phase is the
`Error::Behaviour` case. -/
def progress_protocol (dir : List Nat) (st : Option PState)
    (fname : Option (List Nat)) (s : Stream) : ProgressResult :=
  match st with
  | some .Connected =>
    match h1 : receive_message s with
    | .error e => .err e
    | .ok (m, s1) =>
      match m with
      | .Goodbye => .ok
      | .FileTransferRequest => progress_protocol dir (some .Negotiating) fname s1
      | .Ack => .ok
      | .RequestDenied => .ok
  | some .Negotiating =>
    match h1 : receive_filename s with
    | .error e => .err e
    | .ok (name, s1) => progress_protocol dir (some .Receiving) (some name) s1
  | some .Receiving =>
    match fname with
    | none => .panic
    | some f =>
      match h1 : receive_file dir f s with
      | .fileErr e => .err e
      | .hang _ => .hang
      | .ok _ s1 => progress_protocol dir (some .Connected) fname s1
  | none => .err .behaviour
  termination_by 4 * streamBytes s + stateRank st
  decreasing_by
  · have := receive_message_bytes s _ _ h1
    simp [stateRank]
    omega
  · have := receive_filename_bytes s _ _ h1
    simp [stateRank]
    omega
  · have := receive_file_bytes dir f s _ _ h1
    simp [stateRank]
    omega

/-! Step equations for `progress_protocol`, used to evaluate it (the
well-founded definition does not reduce definitionally). -/

theorem progress_none (dir : List Nat) (fname : Option (List Nat)) (s : Stream) :
    progress_protocol dir none fname s = .err .behaviour := by
  rw [progress_protocol]

theorem progress_connected_err (dir : List Nat) (fname : Option (List Nat))
    (s : Stream) (e : PErr) (h : receive_message s = .error e) :
    progress_protocol dir (some .Connected) fname s = .err e := by
  rw [progress_protocol]
  split <;> simp_all

theorem progress_connected_msg (dir : List Nat) (fname : Option (List Nat))
    (s s1 : Stream) (m : Message) (h : receive_message s = .ok (m, s1)) :
    progress_protocol dir (some .Connected) fname s =
      match m with
      | .FileTransferRequest => progress_protocol dir (some .Negotiating) fname s1
      | _ => .ok := by
  rw [progress_protocol]
  split
  · simp_all
  · rename_i m1 s2 heq
    rw [h] at heq
    cases heq
    cases m <;> rfl

theorem progress_connected_ftr (dir : List Nat) (fname : Option (List Nat))
    (s s1 : Stream) (h : receive_message s = .ok (.FileTransferRequest, s1)) :
    progress_protocol dir (some .Connected) fname s =
      progress_protocol dir (some .Negotiating) fname s1 :=
  progress_connected_msg dir fname s s1 .FileTransferRequest h

theorem progress_connected_goodbye (dir : List Nat) (fname : Option (List Nat))
    (s s1 : Stream) (h : receive_message s = .ok (.Goodbye, s1)) :
    progress_protocol dir (some .Connected) fname s = .ok :=
  progress_connected_msg dir fname s s1 .Goodbye h

theorem progress_negotiating_err (dir : List Nat) (fname : Option (List Nat))
    (s : Stream) (e : PErr) (h : receive_filename s = .error e) :
    progress_protocol dir (some .Negotiating) fname s = .err e := by
  rw [progress_protocol]
  split <;> simp_all

theorem progress_negotiating_ok (dir : List Nat) (fname : Option (List Nat))
    (s s1 : Stream) (name : List Nat) (h : receive_filename s = .ok (name, s1)) :
    progress_protocol dir (some .Negotiating) fname s =
      progress_protocol dir (some .Receiving) (some name) s1 := by
  rw [progress_protocol]
  split
  · simp_all
  · rename_i name1 s2 heq
    rw [h] at heq
    cases heq
    rfl

theorem progress_receiving_none (dir : List Nat) (s : Stream) :
    progress_protocol dir (some .Receiving) none s = .panic := by
  rw [progress_protocol]

theorem progress_receiving_step (dir f : List Nat) (s : Stream) :
    progress_protocol dir (some .Receiving) (some f) s =
      match receive_file dir f s with
      | .fileErr e => .err e
      | .hang _ => .hang
      | .ok _ s1 => progress_protocol dir (some .Connected) (some f) s1 := by
  rw [progress_protocol]
  split <;> simp_all

theorem progress_receiving_ok (dir f : List Nat) (s s1 : Stream) (file : FileOut)
    (h : receive_file dir f s = .ok file s1) :
    progress_protocol dir (some .Receiving) (some f) s =
      progress_protocol dir (some .Connected) (some f) s1 := by
  rw [progress_receiving_step, h]

theorem progress_receiving_hang (dir f : List Nat) (s : Stream) (file : FileOut)
    (h : receive_file dir f s = .hang file) :
    progress_protocol dir (some .Receiving) (some f) s = .hang := by
  rw [progress_receiving_step, h]

theorem progress_receiving_fileErr (dir f : List Nat) (s : Stream) (e : PErr)
    (h : receive_file dir f s = .fileErr e) :
    progress_protocol dir (some .Receiving) (some f) s = .err e := by
  rw [progress_receiving_step, h]

/-- Outcome of `Server::run` on a finite list of incoming connections. -/
inductive RunRes where
  /-- The incoming iterator ended after `handled` fully completed
  connections, and `run` returned `Ok(())`. -/
  | ok (handled : Nat)
  /-- `run` returned this error (raised while handling some connection and
  propagated by the `?` operator out of the accept loop). -/
  | err (e : PErr)
  /-- `run` never returns (stuck inside a connection). -/
  | hang
  /-- The process panicked. -/
  | panic
  deriving DecidableEq, Repr

/-- Embedding of `Server::run` (`src/server.rs`): for each accepted
connection, set the state to `Connected` and call `progress_protocol`,
propagating its error with `?`.  Each connection brings its own inbound
stream.  The real server keeps `self.filename` across connections, but a
fresh connection can only reach `Receiving` through `Negotiating`, which
overwrites it, so starting each connection with no stored filename is
observationally identical. -/
def run (dir : List Nat) : List Stream → RunRes
  | [] => .ok 0
  | s :: rest =>
    match progress_protocol dir (some .Connected) none s with
    | .ok =>
      match run dir rest with
      | .ok n => .ok (n + 1)
      | r => r
    | .err e => .err e
    | .hang => .hang
    | .panic => .panic

/-! ## The claims -/

/-- C1 (amended): for a file of arbitrary byte content and length L
(including L = 0), after a successful send (the 8-byte big-endian length
then the body) followed by a successful receive, the destination file's
bytes equal the source file's bytes exactly and its size equals L —
provided the delivery is benign: the first buffered read already holds the
whole 8-byte length prefix and the stream carries exactly the sent bytes.
(As stated, without the delivery proviso, the claim fails: see the
counterexample.) -/
theorem c1_transfer_integrity (dir fname base body : List Nat) (c : Chunk)
    (rest : Stream)
    (hbase : rustFileName fname = some base)
    (hjoin : (c :: rest).flatten = send_file body)
    (hc8 : 8 ≤ c.length)
    (hne : ∀ d ∈ rest, d ≠ [])
    (hlen : body.length < 2 ^ 64) :
    ∃ file : FileOut, receive_file dir fname (c :: rest) = .ok file [] ∧
      file.contents = body ∧ file.contents.length = body.length :=
  ⟨⟨dir ++ 47 :: base, body⟩,
    receive_file_exact_delivery dir fname base body c rest hbase hjoin hc8 hne hlen,
    rfl, rfl⟩

/-- Witness for C1: a 3-byte file sent as prefix-plus-first-byte and then the
remaining two bytes is received intact. -/
theorem c1_transfer_integrity_witness :
    ∃ file : FileOut,
      receive_file [100] [102] [[0, 0, 0, 0, 0, 0, 0, 3, 1], [2, 3]]
        = .ok file [] ∧
      file.contents = [1, 2, 3] ∧ file.contents.length = ([1, 2, 3] : List Nat).length :=
  c1_transfer_integrity [100] [102] [102] [1, 2, 3] [0, 0, 0, 0, 0, 0, 0, 3, 1]
    [[2, 3]] (by decide) (by decide) (by decide) (by decide) (by decide)

/-- Counterexample for C1 as stated: the sender writes `send_file [7]`
(8-byte length 1, then the byte 7), the network delivers it as a 7-byte read
followed by a 2-byte read, and the receiver returns success — yet the
destination file is empty, not equal to the 1-byte source.  (The size read
uses a single `read` that returns only 7 bytes and zero-pads the buffer.) -/
theorem c1_transfer_integrity_cex :
    List.flatten [[0, 0, 0, 0, 0, 0, 0], [1, 7]] = send_file [7] ∧
    receive_file [100] [102] [[0, 0, 0, 0, 0, 0, 0], [1, 7]]
      = .ok ⟨[100, 47, 102], []⟩ [[1, 7]] ∧
    ([] : List Nat) ≠ [7] := by
  refine ⟨by decide, by decide, by decide⟩

/-- C2 (amended): an error while handling a connection is not caught at the
connection-handling boundary: `Server::run` propagates it with `?`, the
accept loop terminates, and subsequent connections are never handled. -/
theorem c2_run_propagates_error (dir : List Nat) (s : Stream)
    (rest : List Stream) (e : PErr)
    (h : progress_protocol dir (some .Connected) none s = .err e) :
    run dir (s :: rest) = .err e := by
  rw [run, h]

/-- Witness for C2 (amended): a connection whose first byte is the invalid
message 99 makes `run` return the decode error, with a further (perfectly
valid) connection still queued. -/
theorem c2_run_propagates_error_witness :
    run [100] [[[99]], [[30], [97], [0, 0, 0, 0, 0, 0, 0, 1, 7], [255]]]
      = .err .message :=
  c2_run_propagates_error [100] [[99]]
    [[[30], [97], [0, 0, 0, 0, 0, 0, 0, 1, 7], [255]]] .message
    (progress_connected_err [100] none [[99]] .message rfl)

/-- Counterexample for C2 as stated: the listener loop does terminate
because of a single connection's failure.  A lone well-behaved connection
completes (`run` handles 1 connection), but the same connection queued
behind a failing one is never reached: `run` stops with the first
connection's error. -/
theorem c2_listener_loop_cex :
    run [100] [[[30], [97], [0, 0, 0, 0, 0, 0, 0, 1, 7], [255]]] = .ok 1 ∧
    run [100] [[[99]], [[30], [97], [0, 0, 0, 0, 0, 0, 0, 1, 7], [255]]]
      = .err .message := by
  have hgood : progress_protocol [100] (some .Connected) none
      [[30], [97], [0, 0, 0, 0, 0, 0, 0, 1, 7], [255]] = .ok := by
    rw [progress_connected_ftr [100] none
      [[30], [97], [0, 0, 0, 0, 0, 0, 0, 1, 7], [255]]
      [[97], [0, 0, 0, 0, 0, 0, 0, 1, 7], [255]] rfl]
    rw [progress_negotiating_ok [100] none
      [[97], [0, 0, 0, 0, 0, 0, 0, 1, 7], [255]]
      [[0, 0, 0, 0, 0, 0, 0, 1, 7], [255]] [97] rfl]
    rw [progress_receiving_ok [100] [97] [[0, 0, 0, 0, 0, 0, 0, 1, 7], [255]]
      [[255]] ⟨[100, 47, 97], [7]⟩ rfl]
    rw [progress_connected_goodbye [100] (some [97]) [[255]] [] rfl]
  constructor
  · rw [run, hgood, run]
  · rw [run, progress_connected_err [100] none [[99]] .message rfl]

/-- C3: the receive loop does not stop at the declared length.  With
declared length 1 and the two bytes `[7, 9]` arriving in one buffered read
(the 9 belongs to the next message), the loop writes both bytes to the file
and consumes both from the channel; the wrapping `u64` subtraction then
leaves a huge remaining count and the loop never terminates (a debug build
panics on the underflow instead). -/
theorem c3_receive_file_overrun :
    fromBe (bufRead8 [[0, 0, 0, 0, 0, 0, 0, 1], [7, 9]]).1 = 1 ∧
    receive_file [100] [102] [[0, 0, 0, 0, 0, 0, 0, 1], [7, 9]]
      = .hang ⟨[100, 47, 102], [7, 9]⟩ := by
  refine ⟨by decide, by decide⟩

/-- C4: when the stream ends (every further read yields no bytes) before the
declared length is reached, `receive_file` does not fail with a short-read
error — the loop keeps getting an empty buffer, subtracting nothing, and
spins forever.  Declared length 5, only 2 body bytes delivered. -/
theorem c4_receive_file_short_stream_hangs :
    receive_file [100] [102] [[0, 0, 0, 0, 0, 0, 0, 5], [1, 2]]
      = .hang ⟨[100, 47, 102], [1, 2]⟩ := by
  decide

/-- C5: decoding the one-byte encoding of each control message returns the
same message (with encodings 30, 43, 200, 255), and decoding any other byte
fails with the message-decode error while encoding is total, always
producing exactly one byte. -/
theorem c5_message_codec_roundtrip :
    (∀ m : Message, ∃ b : Nat, as_bytes m = [b] ∧ try_from b = .ok m) ∧
    (∀ b : Nat, b ≠ 30 → b ≠ 43 → b ≠ 200 → b ≠ 255 →
      try_from b = .error .message) := by
  constructor
  · intro m
    cases m <;> exact ⟨_, rfl, rfl⟩
  · intro b h1 h2 h3 h4
    simp [try_from, h1, h2, h3, h4]

/-- Witness for C5: byte 99 is refused, and `Ack` round-trips. -/
theorem c5_message_codec_roundtrip_witness :
    try_from 99 = .error .message ∧
    ∃ b : Nat, as_bytes .Ack = [b] ∧ try_from b = .ok .Ack :=
  ⟨c5_message_codec_roundtrip.2 99 (by decide) (by decide) (by decide)
    (by decide),
   c5_message_codec_roundtrip.1 .Ack⟩

/-- C6: if sending `Goodbye` fails on every attempt, the client goodbye loop
gives up after exactly 5 send attempts and moves to `Disconnected` carrying
the last send error as its diagnostic value; after only 4 failed attempts
the loop is still running. -/
theorem c6_client_goodbye_five_attempts (ε : Type) (e1 e2 e3 e4 e5 : ε)
    (rest : List (GStep ε)) :
    clientGoodbye ε (.sendFail e1 :: .sendFail e2 :: .sendFail e3 ::
        .sendFail e4 :: .sendFail e5 :: rest) = some (some e5, 5) ∧
    clientGoodbye ε [.sendFail e1, .sendFail e2, .sendFail e3, .sendFail e4]
      = none :=
  ⟨rfl, rfl⟩

/-- C7: the server goodbye loop does not retry at all.  Its `attempt`
counter is never incremented and the break condition is inverted
(`attempt < max_attempts` breaks with the error), so the very first send
failure makes it give up after exactly 1 send attempt, whatever outcomes
would have followed. -/
theorem c7_server_goodbye_one_attempt (ε : Type) (e : ε)
    (trace : List (Option ε)) :
    serverGoodbye ε (some e :: trace) = some (.error e, 1) :=
  rfl

/-- C8: for every filename payload, a destination file, if created at all,
is created at the configured directory joined with a separator and the base
name component of the received name — a single nonempty component containing
no separator and distinct from the relative components `.` and `..`. -/
theorem c8_path_safety (dir fname : List Nat) (s : Stream) (f : FileOut)
    (h : createdFile (receive_file dir fname s) = some f) :
    ∃ base, rustFileName fname = some base ∧ f.path = dir ++ 47 :: base ∧
      base ≠ [] ∧ 47 ∉ base ∧ base ≠ [46] ∧ base ≠ [46, 46] := by
  unfold receive_file at h
  match hb : rustFileName fname with
  | none =>
    rw [hb] at h
    simp [createdFile] at h
  | some base =>
    rw [hb] at h
    dsimp only at h
    obtain ⟨h1, h2, h3, h4⟩ := rustFileName_clean fname base hb
    refine ⟨base, rfl, ?_, h1, h2, h3, h4⟩
    match hr : receiveFileLoop (bufRead8 s).2 (fromBe (bufRead8 s).1) [] with
    | .done w r =>
      rw [hr] at h
      simp [createdFile] at h
      rw [← h]
    | .hang w =>
      rw [hr] at h
      simp [createdFile] at h
      rw [← h]

/-- Witness for C8: the traversal payload `../../etc/passwd` produces a file
directly under the configured directory named `passwd`. -/
theorem c8_path_safety_witness :
    ∃ base,
      rustFileName [46, 46, 47, 46, 46, 47, 101, 116, 99, 47, 112, 97, 115,
        115, 119, 100] = some base ∧
      (FileOut.mk [100, 47, 112, 97, 115, 115, 119, 100] []).path
        = [100] ++ 47 :: base ∧
      base ≠ [] ∧ 47 ∉ base ∧ base ≠ [46] ∧ base ≠ [46, 46] :=
  c8_path_safety [100]
    [46, 46, 47, 46, 46, 47, 101, 116, 99, 47, 112, 97, 115, 115, 119, 100]
    [[0, 0, 0, 0, 0, 0, 0, 0]]
    (FileOut.mk [100, 47, 112, 97, 115, 115, 119, 100] []) (by decide)

/-- C10: a filename payload whose bytes are not valid UTF-8 makes the
Negotiating step fail with the conversion error: the payload is not stored
and the protocol progression for that connection aborts with the error
before any destination file name is chosen. -/
theorem c10_invalid_utf8_rejected (c : Chunk) (rest : Stream)
    (dir : List Nat) (fname : Option (List Nat))
    (h : validUtf8 c = false) :
    receive_filename (c :: rest) = .error .utf8 ∧
    progress_protocol dir (some .Negotiating) fname (c :: rest)
      = .err .utf8 := by
  have h1 : receive_filename (c :: rest) = .error .utf8 := by
    rw [receive_filename, if_neg (by simp [h])]
  exact ⟨h1, progress_negotiating_err dir fname _ .utf8 h1⟩

/-- Witness for C10: the lone byte 255 is not valid UTF-8 and aborts the
Negotiating step. -/
theorem c10_invalid_utf8_rejected_witness :
    receive_filename [[255]] = .error .utf8 ∧
    progress_protocol [100] (some .Negotiating) none [[255]] = .err .utf8 :=
  c10_invalid_utf8_rejected [255] [] [100] none (by decide)

/-- C9: the size read at the start of `receive_file` is a single buffered
`read` into a zero-initialised 8-byte buffer, not an exact 8-byte read: when
the prefix arrives split as 3 bytes and then 5, only the first 3 bytes are
taken, the buffer is zero-padded, the declared length 1 is misread as 0, and
the remaining 5 prefix bytes are left on the stream to be misinterpreted
later. -/
theorem c9_size_prefix_not_read_exact :
    receive_file [100] [102] [[0, 0, 0], [0, 0, 0, 0, 1], [7]]
      = .ok ⟨[100, 47, 102], []⟩ [[0, 0, 0, 0, 1], [7]] ∧
    fromBe (bufRead8 [[0, 0, 0], [0, 0, 0, 0, 1], [7]]).1 = 0 ∧
    fromBe [0, 0, 0, 0, 0, 0, 0, 1] = 1 := by
  refine ⟨by decide, by decide, by decide⟩

end Fshare
